import Mathlib

/-!
Shallow embedding of the key-protection layer of python-cwt:
`cwt/recipient_algs/aes_key_wrap.py` (class `AESKeyWrap`) and
`cwt/encrypted_cose_key.py` (class `EncryptedCOSEKey`).

Bytes are `List Nat` with each element `< 256`.  Machine integers are `Nat`
with explicit `% 2 ^ w` where the Python code truncates.  Exceptions become
`Except CwtError`; Python object mutation (`self._ciphertext = ...`) becomes
explicit state passing (the operation returns the updated structure).

The AES block cipher itself lives in the external `cryptography` package; the
RFC 3394 wrap/unwrap loops of `aes_key_wrap` / `aes_key_unwrap` (which the
repository calls) are embedded faithfully, parameterized by the keyed 128-bit
block transform `enc`/`dec` (`AES-ECB` encrypt/decrypt of one block, as a
function from the wrapping-key bytes and a block value `< 2 ^ 128`).
-/

/-- Error taxonomy of the spec: `InvalidArgument` models Python `ValueError`
raised on validation, plus the three domain errors of `cwt/exceptions.py`. -/
inductive CwtError where
  | invalidArgument (msg : String)
  | encodeError (msg : String)
  | decodeError (msg : String)
  | verifyError (msg : String)
deriving DecidableEq, Repr

/-- CBOR-style values as used for header maps and payloads (maps with integer
keys, byte strings, arrays, integers, tagged values). -/
inductive CVal where
  | int (i : Int)
  | bytes (bs : List Nat)
  | arr (xs : List CVal)
  | map (kvs : List (Int × CVal))
  | tag (t : Nat) (v : CVal)

/-- Modelled from the spec: the typed-key abstraction (`COSEKeyInterface`,
not under src/): algorithm identifier, key identifier (empty bytes when
absent, as in the recipient base class), raw key bytes, and a capability to
generate a fresh nonce (`none` = `generate_nonce` raises
`NotImplementedError`). -/
structure SymKey where
  alg : Int
  kid : List Nat
  k : List Nat
  nonceGen : Option (List Nat)
deriving DecidableEq, Repr

/-- Modelled from the spec: the key builder's
`fromSymmetricKey(bytes, alg, kid) -> typed key` (`COSEKey.from_symmetric_key`,
not under src/). -/
def COSEKey.from_symmetric_key (k : List Nat) (alg : Int) (kid : List Nat) :
    SymKey :=
  { alg := alg, kid := kid, k := k, nonceGen := none }

/-! ### Byte/block conversion (Python `int.from_bytes` / `int.to_bytes`,
big-endian, and the 8-byte chunking of `_wrap_core` / `_unwrap_core`). -/

/-- `int.from_bytes(bs, "big")`. -/
def bytesToNat (bs : List Nat) : Nat :=
  bs.foldl (fun acc b => acc * 256 + b) 0

/-- `v.to_bytes(c, "big")`, truncated to `c` big-endian base-256 digits
(Python raises `OverflowError` when `v ≥ 256 ^ c`; callers only apply this
below that bound). -/
def natToBytes : Nat → Nat → List Nat
  | 0, _ => []
  | c + 1, v => natToBytes c (v / 256) ++ [v % 256]

/-- `[key[i:i+8] for i in range(0, len(key), 8)]`, each chunk read as a
64-bit big-endian integer (a trailing chunk shorter than 8 bytes is kept
whole, as Python slicing does). -/
def toBlocks : List Nat → List Nat
  | b0 :: b1 :: b2 :: b3 :: b4 :: b5 :: b6 :: b7 :: rest =>
    bytesToNat [b0, b1, b2, b3, b4, b5, b6, b7] :: toBlocks rest
  | [] => []
  | bs => [bytesToNat bs]

/-- Concatenation of the 8-byte big-endian encodings of the blocks
(`b"".join(r)` after the loops). -/
def blocksToBytes (blocks : List Nat) : List Nat :=
  (blocks.map (natToBytes 8)).flatten

/-! ### RFC 3394 wrap/unwrap cores (`_wrap_core` / `_unwrap_core` of
`cryptography.hazmat.primitives.keywrap`), at 64-bit block granularity.

One inner pass of `_wrap_core` over the list `r`, threading `a`:
`b = enc(a || r[i]); a = MSB64(b) ^ t; r[i] = LSB64(b)` with `t = n*j + i + 1`
increasing by one per element. -/
def wrapRows (enc : Nat → Nat) : Nat → Nat → List Nat → Nat × List Nat
  | _, a, [] => (a, [])
  | t, a, ri :: rest =>
    let b := enc (a * 2 ^ 64 + ri)
    let p := wrapRows enc (t + 1) ((b / 2 ^ 64) ^^^ t) rest
    (p.1, b % 2 ^ 64 :: p.2)

/-- The six outer passes `j = j₀, j₀+1, ..., j₀+c-1` of `_wrap_core`
(`for j in range(6)` with `c = 6`, `j₀ = 0`); pass `j` starts at
`t = n*j + 1`. -/
def wrapPasses (enc : Nat → Nat) (n : Nat) :
    Nat → Nat → Nat → List Nat → Nat × List Nat
  | 0, _, a, r => (a, r)
  | c + 1, j, a, r =>
    let p := wrapRows enc (n * j + 1) a r
    wrapPasses enc n c (j + 1) p.1 p.2

/-- One inner pass of `_unwrap_core`, visiting the list from its last element
to its first (`for i in reversed(range(n))`):
`b = dec((a ^ t) || r[i]); a = MSB64(b); r[i] = LSB64(b)` with `t` decreasing
to the given base as the index decreases. -/
def unwrapRows (dec : Nat → Nat) : Nat → Nat → List Nat → Nat × List Nat
  | _, a, [] => (a, [])
  | t, a, ri :: rest =>
    let p := unwrapRows dec (t + 1) a rest
    let b := dec ((p.1 ^^^ t) * 2 ^ 64 + ri)
    (b / 2 ^ 64, b % 2 ^ 64 :: p.2)

/-- The outer passes of `_unwrap_core` (`for j in reversed(range(6))`),
undoing passes `j₀+c-1, ..., j₀`. -/
def unwrapPasses (dec : Nat → Nat) (n j : Nat) :
    Nat → Nat → List Nat → Nat × List Nat
  | 0, a, r => (a, r)
  | c + 1, a, r =>
    let p := unwrapRows dec (n * (j + c) + 1) a r
    unwrapPasses dec n j c p.1 p.2

/-- The RFC 3394 initial value `b"\xa6" * 8`. -/
def aivBlock : Nat := 0xa6a6a6a6a6a6a6a6

/-- `cryptography.hazmat.primitives.keywrap.aes_key_wrap`: length checks, then
the six wrap passes over the 8-byte chunks with initial value `A6...A6`.
`none` models a raised exception. -/
def aes_key_wrap (enc : List Nat → Nat → Nat)
    (wrapping_key key_to_wrap : List Nat) : Option (List Nat) :=
  if wrapping_key.length = 16 ∨ wrapping_key.length = 24 ∨
      wrapping_key.length = 32 then
    if key_to_wrap.length < 16 then none
    else if key_to_wrap.length % 8 ≠ 0 then none
    else
      let r := toBlocks key_to_wrap
      let p := wrapPasses (enc wrapping_key) r.length 6 0 aivBlock r
      some (blocksToBytes (p.1 :: p.2))
  else none

/-- `cryptography.hazmat.primitives.keywrap.aes_key_unwrap`: length checks,
split off the first block as `a`, run the six unwrap passes, and require the
recovered `a` to equal the initial value `A6...A6`. -/
def aes_key_unwrap (dec : List Nat → Nat → Nat)
    (wrapping_key wrapped_key : List Nat) : Option (List Nat) :=
  if wrapped_key.length < 24 then none
  else if wrapped_key.length % 8 ≠ 0 then none
  else if wrapping_key.length = 16 ∨ wrapping_key.length = 24 ∨
      wrapping_key.length = 32 then
    match toBlocks wrapped_key with
    | [] => none
    | a :: r =>
      let p := unwrapPasses (dec wrapping_key) r.length 0 6 a r
      if p.1 = aivBlock then some (blocksToBytes p.2) else none
  else none

/-! ### The `AESKeyWrap` recipient (`cwt/recipient_algs/aes_key_wrap.py`). -/

/-- The recipient structure's state after construction.  `alg` is read from
`protected[1]` and `kid` from `unprotected[4]` by the base class; `key` is
the shared secret for this layer; `ciphertext` is mutated by `encode_key`. -/
structure AESKeyWrap where
  protected_ : List (Int × CVal)
  unprotected : List (Int × CVal)
  ciphertext : List Nat
  recipients : List CVal
  key_ops : List Int
  key : List Nat
  alg : Int
  kid : List Nat

/-- Modelled from the spec: the recipient-structure base constructor
(`RecipientInterface.__init__`, not under src/) "extracts and stores the
algorithm id from `protected[1]`; fails with `InvalidArgument` if absent",
and exposes `kid` from the unprotected key-id label 4 (empty bytes when
absent). -/
def RecipientInterface.getAlg (protected_ : List (Int × CVal)) :
    Except CwtError Int :=
  match protected_.lookup 1 with
  | some (CVal.int a) => Except.ok a
  | _ => Except.error (CwtError.invalidArgument "alg should be specified.")

/-- Modelled from the spec: the base class's key id, read from unprotected
header label 4 (empty bytes when absent or not a byte string). -/
def RecipientInterface.getKid (unprotected : List (Int × CVal)) : List Nat :=
  match (unprotected.lookup 4).getD (CVal.bytes []) with
  | CVal.bytes b => b
  | _ => []

/-- `f"Invalid key length: {len(self._key)}."`. -/
def invalidKeyLengthMsg (n : Nat) : String :=
  s!"Invalid key length: {n}."

/-- `f"Unknown alg(3) for AES key wrap: {self._alg}."`. -/
def unknownAlgMsg (a : Int) : String :=
  s!"Unknown alg(3) for AES key wrap: {a}."

/-- `AESKeyWrap.__init__`: base-class construction, then the algorithm id is
checked to be one of -3, -4, -5 (A128KW, A192KW, A256KW) and, when the
supplied shared secret is truthy (non-empty), its length must be 16, 24 or 32 bytes
respectively. -/
def AESKeyWrap.init (protected_ unprotected : List (Int × CVal))
    (ciphertext : List Nat) (recipients : List CVal) (key_ops : List Int)
    (key : List Nat) : Except CwtError AESKeyWrap :=
  match RecipientInterface.getAlg protected_ with
  | Except.error e => Except.error e
  | Except.ok a =>
    let self : AESKeyWrap :=
      { protected_ := protected_, unprotected := unprotected,
        ciphertext := ciphertext, recipients := recipients,
        key_ops := key_ops, key := key, alg := a,
        kid := RecipientInterface.getKid unprotected }
    if a = -3 then
      if key ≠ [] ∧ key.length ≠ 16 then
        Except.error (CwtError.invalidArgument (invalidKeyLengthMsg key.length))
      else Except.ok self
    else if a = -4 then
      if key ≠ [] ∧ key.length ≠ 24 then
        Except.error (CwtError.invalidArgument (invalidKeyLengthMsg key.length))
      else Except.ok self
    else if a = -5 then
      if key ≠ [] ∧ key.length ≠ 32 then
        Except.error (CwtError.invalidArgument (invalidKeyLengthMsg key.length))
      else Except.ok self
    else
      Except.error (CwtError.invalidArgument (unknownAlgMsg a))

/-- `AESKeyWrap.encode_key`: requires a key, wraps its raw bytes under the
stored shared secret, stores the result as the structure's ciphertext, and
returns the input key itself; a primitive failure becomes `EncodeError` and
leaves the structure unchanged (the assignment never happens).  The pair
returns the structure's state after the call next to the call's result. -/
def AESKeyWrap.encode_key (enc : List Nat → Nat → Nat) (self : AESKeyWrap)
    (key : Option SymKey) : AESKeyWrap × Except CwtError SymKey :=
  match key with
  | none =>
    (self, Except.error (CwtError.invalidArgument "key should be set."))
  | some k =>
    match aes_key_wrap enc self.key k.k with
    | none =>
      (self, Except.error (CwtError.encodeError "Failed to wrap key."))
    | some ct => ({ self with ciphertext := ct }, Except.ok k)

/-- `AESKeyWrap.decode_key`: `if not alg` (falsy: absent or zero) raises;
otherwise unwraps the stored ciphertext under the *supplied* key's raw bytes
(`key.key`) and builds a symmetric key under `alg` with the structure's key
id; a primitive failure becomes `DecodeError`. -/
def AESKeyWrap.decode_key (dec : List Nat → Nat → Nat) (self : AESKeyWrap)
    (key : SymKey) (alg : Option Int) : Except CwtError SymKey :=
  match alg with
  | none => Except.error (CwtError.invalidArgument "alg should be set.")
  | some a =>
    if a = 0 then
      Except.error (CwtError.invalidArgument "alg should be set.")
    else
      match aes_key_unwrap dec key.k self.ciphertext with
      | none =>
        Except.error (CwtError.decodeError "Failed to decode key.")
      | some unwrapped =>
        Except.ok (COSEKey.from_symmetric_key unwrapped a self.kid)

/-- `AESKeyWrap.decode_key` with the external key builder abstracted as a
fallible function: `COSEKey.from_symmetric_key` is code of the repository not
under src/, the spec gives only its interface
(`fromSymmetricKey(bytes, alg, kid) -> typed key`), and a raised exception is
`none` here.  The source's `try` block spans both the unwrap and the builder
call, so either failure is re-raised as `DecodeError`.
`AESKeyWrap.decode_key` is the instance of this definition at the total
spec-modelled builder. -/
def AESKeyWrap.decode_key_with
    (from_symmetric_key : List Nat → Int → List Nat → Option SymKey)
    (dec : List Nat → Nat → Nat) (self : AESKeyWrap)
    (key : SymKey) (alg : Option Int) : Except CwtError SymKey :=
  match alg with
  | none => Except.error (CwtError.invalidArgument "alg should be set.")
  | some a =>
    if a = 0 then
      Except.error (CwtError.invalidArgument "alg should be set.")
    else
      match aes_key_unwrap dec key.k self.ciphertext with
      | none =>
        Except.error (CwtError.decodeError "Failed to decode key.")
      | some unwrapped =>
        match from_symmetric_key unwrapped a self.kid with
        | none =>
          Except.error (CwtError.decodeError "Failed to decode key.")
        | some k2 => Except.ok k2

/-! ### The `EncryptedCOSEKey` envelope (`cwt/encrypted_cose_key.py`). -/

/-- Modelled from the spec: the external collaborators of the envelope
component (`COSE` engine, CBOR load/dump, key builder — none under src/),
kept abstract as function fields so the envelope's delegation is stated
about an arbitrary engine.  `coseDecode` is
`decode(taggedCiphertext, key) -> plaintext bytes` (may fail with the
engine's own error); `coseEncodeAndEncrypt` is
`encode_and_encrypt(payload, key, protected, unprotected, nonce) ->
tagged envelope`, a `(tagValue, value)` pair standing for the returned
`CBORTag`. -/
structure Collab where
  coseDecode : Nat × CVal → SymKey → Except CwtError (List Nat)
  coseEncodeAndEncrypt :
    List Nat → SymKey → List (Int × CVal) → List (Int × CVal) → List Nat →
      Nat × CVal
  loads : List Nat → Except CwtError CVal
  dumps : CVal → List Nat
  from_dict : CVal → Except CwtError SymKey

/-- Modelled from the spec: the typed key's attribute mapping (`to_dict`):
key-type tag, algorithm id, key id when present, raw key bytes. -/
def SymKey.to_dict (key : SymKey) : CVal :=
  CVal.map ([(1, CVal.int 4), (3, CVal.int key.alg)] ++
    (if key.kid ≠ [] then [(2, CVal.bytes key.kid)] else []) ++
    [(-1, CVal.bytes key.k)])

/-- `EncryptedCOSEKey.decode`: wraps the input in `CBORTag(16, key)`,
delegates decryption to the engine, deserializes the plaintext and rebuilds
a typed key; no failure is caught here. -/
def EncryptedCOSEKey.decode (c : Collab) (key : CVal) (encryption_key : SymKey) :
    Except CwtError SymKey :=
  match c.coseDecode (16, key) encryption_key with
  | Except.error e => Except.error e
  | Except.ok pt =>
    match c.loads pt with
    | Except.error e => Except.error e
    | Except.ok res => c.from_dict res

/-- `EncryptedCOSEKey.encode`: protected header `{1: encryption_key.alg}`,
unprotected header `{4: kid}` when the key id is truthy; an empty nonce is
replaced by a generated one (failing with `ValueError` when the key cannot
generate); the nonce is stored under unprotected label 5; the payload is the
serialized key mapping; the engine's tagged result's `value` is returned —
the `tagged` flag is ignored by the code. -/
def EncryptedCOSEKey.encode (c : Collab) (key encryption_key : SymKey)
    (nonce : List Nat) (tagged : Bool) : Except CwtError CVal :=
  let protected_ : List (Int × CVal) := [(1, CVal.int encryption_key.alg)]
  let unprotected : List (Int × CVal) :=
    if encryption_key.kid ≠ [] then [(4, CVal.bytes encryption_key.kid)]
    else []
  let nonceRes : Except CwtError (List Nat) :=
    if nonce = [] then
      match encryption_key.nonceGen with
      | none =>
        Except.error (CwtError.invalidArgument
          "Nonce generation is not supported for the key. Set a nonce explicitly.")
      | some n => Except.ok n
    else Except.ok nonce
  match nonceRes with
  | Except.error e => Except.error e
  | Except.ok n =>
    let unprotected := unprotected ++ [(5, CVal.bytes n)]
    let b_payload := c.dumps key.to_dict
    let res :=
      c.coseEncodeAndEncrypt b_payload encryption_key protected_ unprotected n
    Except.ok res.2

/-! ### Conversion lemmas. -/

theorem foldl_base256_lt (bs : List Nat) :
    ∀ acc, (∀ b ∈ bs, b < 256) →
      bs.foldl (fun a b => a * 256 + b) acc < (acc + 1) * 256 ^ bs.length := by
  induction bs with
  | nil => intro acc _; simpa using Nat.lt_succ_self acc
  | cons b rest ih =>
    intro acc h
    have hb : b < 256 := h b (List.mem_cons_self b rest)
    have := ih (acc * 256 + b) (fun x hx => h x (List.mem_cons_of_mem b hx))
    calc (b :: rest).foldl (fun a c => a * 256 + c) acc
        = rest.foldl (fun a c => a * 256 + c) (acc * 256 + b) := rfl
      _ < (acc * 256 + b + 1) * 256 ^ rest.length := this
      _ ≤ ((acc + 1) * 256) * 256 ^ rest.length := by
          have : acc * 256 + b + 1 ≤ (acc + 1) * 256 := by nlinarith
          exact Nat.mul_le_mul_right _ this
      _ = (acc + 1) * 256 ^ (rest.length + 1) := by ring
      _ = (acc + 1) * 256 ^ (b :: rest).length := by simp

theorem bytesToNat_lt {bs : List Nat} (h : ∀ b ∈ bs, b < 256) :
    bytesToNat bs < 256 ^ bs.length := by
  have := foldl_base256_lt bs 0 h
  simpa [bytesToNat] using this

theorem bytesToNat_append_singleton (xs : List Nat) (y : Nat) :
    bytesToNat (xs ++ [y]) = bytesToNat xs * 256 + y := by
  simp [bytesToNat, List.foldl_append]

theorem natToBytes_length (c v : Nat) : (natToBytes c v).length = c := by
  induction c generalizing v with
  | zero => rfl
  | succ c ih => simp [natToBytes, ih]

theorem natToBytes_mem_lt (c v : Nat) : ∀ x ∈ natToBytes c v, x < 256 := by
  induction c generalizing v with
  | zero => intro x hx; simp [natToBytes] at hx
  | succ c ih =>
    intro x hx
    simp only [natToBytes, List.mem_append, List.mem_singleton] at hx
    rcases hx with hx | hx
    · exact ih (v / 256) x hx
    · subst hx; exact Nat.mod_lt _ (by norm_num)

theorem natToBytes_bytesToNat (bs : List Nat) (h : ∀ b ∈ bs, b < 256) :
    natToBytes bs.length (bytesToNat bs) = bs := by
  induction bs using List.reverseRecOn with
  | nil => rfl
  | append_singleton xs y ih =>
    have hy : y < 256 := h y (by simp)
    have hxs : ∀ b ∈ xs, b < 256 := fun b hb => h b (by simp [hb])
    rw [bytesToNat_append_singleton]
    have hlen : (xs ++ [y]).length = xs.length + 1 := by simp
    rw [hlen]
    show natToBytes xs.length ((bytesToNat xs * 256 + y) / 256) ++
      [(bytesToNat xs * 256 + y) % 256] = xs ++ [y]
    have h1 : (bytesToNat xs * 256 + y) / 256 = bytesToNat xs := by omega
    have h2 : (bytesToNat xs * 256 + y) % 256 = y := by omega
    rw [h1, h2, ih hxs]

theorem bytesToNat_natToBytes (c : Nat) :
    ∀ v, v < 256 ^ c → bytesToNat (natToBytes c v) = v := by
  induction c with
  | zero =>
    intro v hv
    interval_cases v
    rfl
  | succ c ih =>
    intro v hv
    show bytesToNat (natToBytes c (v / 256) ++ [v % 256]) = v
    rw [bytesToNat_append_singleton, ih (v / 256) ?_]
    · omega
    · have : v < 256 * 256 ^ c := by
        calc v < 256 ^ (c + 1) := hv
          _ = 256 * 256 ^ c := by ring
      exact Nat.div_lt_of_lt_mul this

theorem toBlocks_nil : toBlocks [] = [] := rfl

theorem toBlocks_eq_take_drop (bs : List Nat) (h : 8 ≤ bs.length) :
    toBlocks bs = bytesToNat (bs.take 8) :: toBlocks (bs.drop 8) := by
  match bs with
  | b0 :: b1 :: b2 :: b3 :: b4 :: b5 :: b6 :: b7 :: rest => rfl
  | [] => simp at h
  | [b0] => simp at h
  | [b0, b1] => simp at h
  | [b0, b1, b2] => simp at h
  | [b0, b1, b2, b3] => simp at h
  | [b0, b1, b2, b3, b4] => simp at h
  | [b0, b1, b2, b3, b4, b5] => simp at h
  | [b0, b1, b2, b3, b4, b5, b6] => simp at h

theorem toBlocks_short (bs : List Nat) (h0 : bs ≠ []) (h8 : bs.length < 8) :
    toBlocks bs = [bytesToNat bs] := by
  match bs with
  | b0 :: b1 :: b2 :: b3 :: b4 :: b5 :: b6 :: b7 :: rest =>
    simp only [List.length_cons] at h8
    omega
  | [] => exact absurd rfl h0
  | [b0] => rfl
  | [b0, b1] => rfl
  | [b0, b1, b2] => rfl
  | [b0, b1, b2, b3] => rfl
  | [b0, b1, b2, b3, b4] => rfl
  | [b0, b1, b2, b3, b4, b5] => rfl
  | [b0, b1, b2, b3, b4, b5, b6] => rfl

theorem toBlocks_append8 (chunk rest : List Nat) (h : chunk.length = 8) :
    toBlocks (chunk ++ rest) = bytesToNat chunk :: toBlocks rest := by
  match chunk, h with
  | [c0, c1, c2, c3, c4, c5, c6, c7], _ => rfl

theorem blocksToBytes_nil : blocksToBytes [] = [] := rfl

theorem blocksToBytes_cons (x : Nat) (xs : List Nat) :
    blocksToBytes (x :: xs) = natToBytes 8 x ++ blocksToBytes xs := by
  simp [blocksToBytes]

theorem blocksToBytes_length (blocks : List Nat) :
    (blocksToBytes blocks).length = 8 * blocks.length := by
  induction blocks with
  | nil => rfl
  | cons x xs ih =>
    rw [blocksToBytes_cons]
    simp [natToBytes_length, ih]
    ring

theorem toBlocks_blocksToBytes (blocks : List Nat)
    (h : ∀ x ∈ blocks, x < 2 ^ 64) :
    toBlocks (blocksToBytes blocks) = blocks := by
  induction blocks with
  | nil => simp [blocksToBytes_nil, toBlocks_nil]
  | cons x xs ih =>
    rw [blocksToBytes_cons,
      toBlocks_append8 _ _ (natToBytes_length 8 x),
      bytesToNat_natToBytes 8 x
        (by simpa using h x (List.mem_cons_self x xs)),
      ih (fun y hy => h y (List.mem_cons_of_mem x hy))]

theorem blocksToBytes_toBlocks :
    ∀ n (bs : List Nat), bs.length = n → bs.length % 8 = 0 →
      (∀ b ∈ bs, b < 256) → blocksToBytes (toBlocks bs) = bs := by
  intro n
  induction n using Nat.strong_induction_on with
  | _ n ih =>
    intro bs hn h8 hb
    match bs with
    | [] => simp [toBlocks_nil, blocksToBytes_nil]
    | b :: rest =>
      have hlen8 : 8 ≤ (b :: rest).length := by
        simp only [List.length_cons] at h8 ⊢
        omega
      have hchunk : ((b :: rest).take 8).length = 8 :=
        List.length_take_of_le hlen8
      have hsplit : (b :: rest).take 8 ++ (b :: rest).drop 8 = b :: rest :=
        List.take_append_drop 8 (b :: rest)
      have htb : toBlocks (b :: rest) =
          bytesToNat ((b :: rest).take 8) :: toBlocks ((b :: rest).drop 8) := by
        conv_lhs => rw [← hsplit]
        exact toBlocks_append8 _ _ hchunk
      rw [htb, blocksToBytes_cons]
      have hbt : ∀ x ∈ (b :: rest).take 8, x < 256 :=
        fun x hx => hb x (List.mem_of_mem_take hx)
      have hbd : ∀ x ∈ (b :: rest).drop 8, x < 256 :=
        fun x hx => hb x (List.mem_of_mem_drop hx)
      have h1 : natToBytes 8 (bytesToNat ((b :: rest).take 8)) =
          (b :: rest).take 8 := by
        have := natToBytes_bytesToNat ((b :: rest).take 8) hbt
        rwa [hchunk] at this
      have hdroplen : ((b :: rest).drop 8).length = (b :: rest).length - 8 :=
        List.length_drop 8 (b :: rest)
      have h2 : blocksToBytes (toBlocks ((b :: rest).drop 8)) =
          (b :: rest).drop 8 := by
        refine ih ((b :: rest).length - 8) (by omega) _ (by omega) (by omega) hbd
      rw [h1, h2, hsplit]

theorem toBlocks_mem_lt :
    ∀ n (bs : List Nat), bs.length = n → (∀ b ∈ bs, b < 256) →
      ∀ x ∈ toBlocks bs, x < 2 ^ 64 := by
  intro n
  induction n using Nat.strong_induction_on with
  | _ n ih =>
    intro bs hn hb x hx
    have hgen : ∀ (cs : List Nat), cs.length ≤ 8 → (∀ y ∈ cs, y < 256) →
        bytesToNat cs < 2 ^ 64 := by
      intro cs hlen hcs
      calc bytesToNat cs < 256 ^ cs.length := bytesToNat_lt hcs
        _ ≤ 256 ^ 8 := Nat.pow_le_pow_right (by norm_num) hlen
        _ = 2 ^ 64 := by norm_num
    rcases Nat.lt_or_ge bs.length 8 with hshort | hlong
    · match bs with
      | [] => simp [toBlocks_nil] at hx
      | b :: rest =>
        rw [toBlocks_short (b :: rest) (by simp) hshort] at hx
        rcases List.mem_singleton.mp hx with rfl
        exact hgen (b :: rest) (by omega) hb
    · rw [toBlocks_eq_take_drop bs hlong] at hx
      rcases List.mem_cons.mp hx with hx | hx
      · subst hx
        refine hgen (bs.take 8) (by simp) ?_
        exact fun y hy => hb y (List.mem_of_mem_take hy)
      · refine ih (bs.drop 8).length ?_ _ rfl
          (fun y hy => hb y (List.mem_of_mem_drop hy)) x hx
        simp only [List.length_drop]
        omega

/-! ### Inversion of the wrap/unwrap cores. -/

theorem xor_lt_two_pow_64 {x y : Nat} (hx : x < 2 ^ 64) (hy : y < 2 ^ 64) :
    x ^^^ y < 2 ^ 64 :=
  Nat.bitwise_lt hx hy

theorem concat_lt {a ri : Nat} (ha : a < 2 ^ 64) (hri : ri < 2 ^ 64) :
    a * 2 ^ 64 + ri < 2 ^ 128 := by
  have e : (2 : ℕ) ^ 128 = 2 ^ 64 * 2 ^ 64 := by norm_num
  rw [e]
  calc a * 2 ^ 64 + ri < a * 2 ^ 64 + 2 ^ 64 := by omega
    _ = (a + 1) * 2 ^ 64 := by ring
    _ ≤ 2 ^ 64 * 2 ^ 64 := Nat.mul_le_mul_right _ (by omega)

theorem wrapRows_cons (enc : Nat → Nat) (t a ri : Nat) (rest : List Nat) :
    wrapRows enc t a (ri :: rest) =
      ((wrapRows enc (t + 1) ((enc (a * 2 ^ 64 + ri) / 2 ^ 64) ^^^ t) rest).1,
        enc (a * 2 ^ 64 + ri) % 2 ^ 64 ::
          (wrapRows enc (t + 1)
            ((enc (a * 2 ^ 64 + ri) / 2 ^ 64) ^^^ t) rest).2) := rfl

theorem unwrapRows_cons (dec : Nat → Nat) (t a ri : Nat) (rest : List Nat) :
    unwrapRows dec t a (ri :: rest) =
      (dec (((unwrapRows dec (t + 1) a rest).1 ^^^ t) * 2 ^ 64 + ri) / 2 ^ 64,
        dec (((unwrapRows dec (t + 1) a rest).1 ^^^ t) * 2 ^ 64 + ri) %
            2 ^ 64 ::
          (unwrapRows dec (t + 1) a rest).2) := rfl

theorem wrapRows_length (enc : Nat → Nat) :
    ∀ (r : List Nat) (t a : Nat), (wrapRows enc t a r).2.length = r.length := by
  intro r
  induction r with
  | nil => intro t a; rfl
  | cons ri rest ih =>
    intro t a
    rw [wrapRows_cons]
    simp [ih]

theorem wrapRows_snd_mem_lt (enc : Nat → Nat) :
    ∀ (r : List Nat) (t a : Nat), ∀ x ∈ (wrapRows enc t a r).2, x < 2 ^ 64 := by
  intro r
  induction r with
  | nil => intro t a x hx; simp [wrapRows] at hx
  | cons ri rest ih =>
    intro t a x hx
    rw [wrapRows_cons] at hx
    rcases List.mem_cons.mp hx with hx | hx
    · subst hx; exact Nat.mod_lt _ (by positivity)
    · exact ih _ _ x hx

theorem wrapRows_fst_lt (enc : Nat → Nat)
    (henc : ∀ x < 2 ^ 128, enc x < 2 ^ 128) :
    ∀ (r : List Nat) (t a : Nat), a < 2 ^ 64 → (∀ x ∈ r, x < 2 ^ 64) →
      t + r.length ≤ 2 ^ 64 → (wrapRows enc t a r).1 < 2 ^ 64 := by
  intro r
  induction r with
  | nil => intro t a ha _ _; exact ha
  | cons ri rest ih =>
    intro t a ha hr ht
    rw [wrapRows_cons]
    have hri : ri < 2 ^ 64 := hr ri (List.mem_cons_self ri rest)
    have hb : enc (a * 2 ^ 64 + ri) < 2 ^ 128 := henc _ (concat_lt ha hri)
    have hdiv : enc (a * 2 ^ 64 + ri) / 2 ^ 64 < 2 ^ 64 := by
      apply Nat.div_lt_of_lt_mul
      calc enc (a * 2 ^ 64 + ri) < 2 ^ 128 := hb
        _ = 2 ^ 64 * 2 ^ 64 := by norm_num
    have ht' : t < 2 ^ 64 := by
      simp only [List.length_cons] at ht
      omega
    refine ih _ _ (xor_lt_two_pow_64 hdiv ht')
      (fun x hx => hr x (List.mem_cons_of_mem ri hx)) ?_
    simp only [List.length_cons] at ht
    omega

theorem unwrapRows_wrapRows (enc dec : Nat → Nat)
    (hdec : ∀ x < 2 ^ 128, dec (enc x) = x)
    (henc : ∀ x < 2 ^ 128, enc x < 2 ^ 128) :
    ∀ (r : List Nat) (t a : Nat), a < 2 ^ 64 → (∀ x ∈ r, x < 2 ^ 64) →
      t + r.length ≤ 2 ^ 64 →
      unwrapRows dec t (wrapRows enc t a r).1 (wrapRows enc t a r).2 =
        (a, r) := by
  intro r
  induction r with
  | nil => intro t a _ _ _; rfl
  | cons ri rest ih =>
    intro t a ha hr ht
    have hri : ri < 2 ^ 64 := hr ri (List.mem_cons_self ri rest)
    have harg : a * 2 ^ 64 + ri < 2 ^ 128 := concat_lt ha hri
    have hb : enc (a * 2 ^ 64 + ri) < 2 ^ 128 := henc _ harg
    have hdiv : enc (a * 2 ^ 64 + ri) / 2 ^ 64 < 2 ^ 64 := by
      apply Nat.div_lt_of_lt_mul
      calc enc (a * 2 ^ 64 + ri) < 2 ^ 128 := hb
        _ = 2 ^ 64 * 2 ^ 64 := by norm_num
    have ht' : t < 2 ^ 64 := by
      simp only [List.length_cons] at ht
      omega
    have ha1 : (enc (a * 2 ^ 64 + ri) / 2 ^ 64) ^^^ t < 2 ^ 64 :=
      xor_lt_two_pow_64 hdiv ht'
    have hih := ih (t + 1) ((enc (a * 2 ^ 64 + ri) / 2 ^ 64) ^^^ t) ha1
      (fun x hx => hr x (List.mem_cons_of_mem ri hx))
      (by simp only [List.length_cons] at ht; omega)
    rw [wrapRows_cons, unwrapRows_cons, hih]
    have hxor : ((enc (a * 2 ^ 64 + ri) / 2 ^ 64) ^^^ t) ^^^ t =
        enc (a * 2 ^ 64 + ri) / 2 ^ 64 := Nat.xor_cancel_right t _
    rw [hxor]
    have hrecomb : enc (a * 2 ^ 64 + ri) / 2 ^ 64 * 2 ^ 64 +
        enc (a * 2 ^ 64 + ri) % 2 ^ 64 = enc (a * 2 ^ 64 + ri) := by omega
    rw [hrecomb, hdec _ harg]
    have h1 : (a * 2 ^ 64 + ri) / 2 ^ 64 = a := by omega
    have h2 : (a * 2 ^ 64 + ri) % 2 ^ 64 = ri := by omega
    rw [h1, h2]

theorem wrapPasses_zero (enc : Nat → Nat) (n j a : Nat) (r : List Nat) :
    wrapPasses enc n 0 j a r = (a, r) := rfl

theorem wrapPasses_succ (enc : Nat → Nat) (n c j a : Nat) (r : List Nat) :
    wrapPasses enc n (c + 1) j a r =
      wrapPasses enc n c (j + 1) (wrapRows enc (n * j + 1) a r).1
        (wrapRows enc (n * j + 1) a r).2 := rfl

theorem unwrapPasses_zero (dec : Nat → Nat) (n j a : Nat) (r : List Nat) :
    unwrapPasses dec n j 0 a r = (a, r) := rfl

theorem unwrapPasses_succ (dec : Nat → Nat) (n j c a : Nat) (r : List Nat) :
    unwrapPasses dec n j (c + 1) a r =
      unwrapPasses dec n j c (unwrapRows dec (n * (j + c) + 1) a r).1
        (unwrapRows dec (n * (j + c) + 1) a r).2 := rfl

theorem wrapPasses_peel (enc : Nat → Nat) (n : Nat) :
    ∀ (c j a : Nat) (r : List Nat),
      wrapPasses enc n (c + 1) j a r =
        wrapRows enc (n * (j + c) + 1) (wrapPasses enc n c j a r).1
          (wrapPasses enc n c j a r).2 := by
  intro c
  induction c with
  | zero =>
    intro j a r
    rw [wrapPasses_succ, wrapPasses_zero, wrapPasses_zero]
    simp
  | succ c ih =>
    intro j a r
    rw [wrapPasses_succ, ih (j + 1), ← wrapPasses_succ]
    have harith : j + 1 + c = j + (c + 1) := by omega
    rw [harith]

theorem wrapPasses_snd_mem_lt (enc : Nat → Nat) (n : Nat) :
    ∀ (c j a : Nat) (r : List Nat), (∀ x ∈ r, x < 2 ^ 64) →
      ∀ x ∈ (wrapPasses enc n c j a r).2, x < 2 ^ 64 := by
  intro c
  induction c with
  | zero => intro j a r hr; simpa [wrapPasses_zero] using hr
  | succ c ih =>
    intro j a r hr
    rw [wrapPasses_succ]
    exact ih (j + 1) _ _ (wrapRows_snd_mem_lt enc r _ a)

theorem wrapPasses_length (enc : Nat → Nat) (n : Nat) :
    ∀ (c j a : Nat) (r : List Nat),
      (wrapPasses enc n c j a r).2.length = r.length := by
  intro c
  induction c with
  | zero => intro j a r; rfl
  | succ c ih =>
    intro j a r
    rw [wrapPasses_succ, ih]
    exact wrapRows_length enc r _ a

theorem wrapPasses_fst_lt (enc : Nat → Nat)
    (henc : ∀ x < 2 ^ 128, enc x < 2 ^ 128) (n : Nat) :
    ∀ (c j a : Nat) (r : List Nat), a < 2 ^ 64 → (∀ x ∈ r, x < 2 ^ 64) →
      r.length = n → n * (j + c) + 1 ≤ 2 ^ 64 →
      (wrapPasses enc n c j a r).1 < 2 ^ 64 := by
  intro c
  induction c with
  | zero => intro j a r ha _ _ _; exact ha
  | succ c ih =>
    intro j a r ha hr hlen hbound
    rw [wrapPasses_succ]
    have heq : n * (j + c + 1) = n * (j + (c + 1)) := by ring
    have hrowbound : n * j + 1 + r.length ≤ 2 ^ 64 := by
      have h1 : n * j + n ≤ n * (j + c + 1) := by
        have : n * (j + 1) ≤ n * (j + c + 1) :=
          Nat.mul_le_mul_left n (by omega)
        calc n * j + n = n * (j + 1) := by ring
          _ ≤ n * (j + c + 1) := this
      omega
    refine ih (j + 1) _ _
      (wrapRows_fst_lt enc henc r _ a ha hr hrowbound)
      (wrapRows_snd_mem_lt enc r _ a)
      (by rw [wrapRows_length]; exact hlen) ?_
    have : n * (j + 1 + c) = n * (j + c + 1) := by ring
    omega

theorem unwrapPasses_wrapPasses (enc dec : Nat → Nat)
    (hdec : ∀ x < 2 ^ 128, dec (enc x) = x)
    (henc : ∀ x < 2 ^ 128, enc x < 2 ^ 128) (n : Nat) :
    ∀ (c j a : Nat) (r : List Nat), a < 2 ^ 64 → (∀ x ∈ r, x < 2 ^ 64) →
      r.length = n → n * (j + c) + 1 ≤ 2 ^ 64 →
      unwrapPasses dec n j c (wrapPasses enc n c j a r).1
        (wrapPasses enc n c j a r).2 = (a, r) := by
  intro c
  induction c with
  | zero => intro j a r _ _ _ _; rfl
  | succ c ih =>
    intro j a r ha hr hlen hbound
    have hbc : n * (j + c) + 1 ≤ 2 ^ 64 := by
      have : n * (j + c) ≤ n * (j + (c + 1)) :=
        Nat.mul_le_mul_left n (by omega)
      omega
    have hW1 : (wrapPasses enc n c j a r).1 < 2 ^ 64 :=
      wrapPasses_fst_lt enc henc n c j a r ha hr hlen hbc
    have hW2 : ∀ x ∈ (wrapPasses enc n c j a r).2, x < 2 ^ 64 :=
      wrapPasses_snd_mem_lt enc n c j a r hr
    have hWlen : (wrapPasses enc n c j a r).2.length = n := by
      rw [wrapPasses_length]; exact hlen
    have hrowbound : n * (j + c) + 1 +
        (wrapPasses enc n c j a r).2.length ≤ 2 ^ 64 := by
      rw [hWlen]
      have : n * (j + c) + n = n * (j + (c + 1)) := by ring
      omega
    rw [wrapPasses_peel, unwrapPasses_succ]
    rw [unwrapRows_wrapRows enc dec hdec henc _ _ _ hW1 hW2 hrowbound]
    exact ih j a r ha hr hlen hbc

theorem aes_key_unwrap_cons (dec : List Nat → Nat → Nat)
    (wk ct : List Nat) (a : Nat) (r : List Nat)
    (h24 : ¬ ct.length < 24) (h8 : ¬ ct.length % 8 ≠ 0)
    (hwk : wk.length = 16 ∨ wk.length = 24 ∨ wk.length = 32)
    (hblocks : toBlocks ct = a :: r) :
    aes_key_unwrap dec wk ct =
      if (unwrapPasses (dec wk) r.length 0 6 a r).1 = aivBlock then
        some (blocksToBytes (unwrapPasses (dec wk) r.length 0 6 a r).2)
      else none := by
  rw [aes_key_unwrap, if_neg h24, if_neg h8, if_pos hwk, hblocks]

/-- RFC 3394 round trip at the byte level: wrapping a valid input key and
unwrapping it with the inverse block transform recovers the key exactly. -/
theorem aes_key_wrap_unwrap (enc dec : List Nat → Nat → Nat)
    (wk k : List Nat)
    (hdec : ∀ x < 2 ^ 128, dec wk (enc wk x) = x)
    (henc : ∀ x < 2 ^ 128, enc wk x < 2 ^ 128)
    (hwk : wk.length = 16 ∨ wk.length = 24 ∨ wk.length = 32)
    (hk16 : 16 ≤ k.length) (hk8 : k.length % 8 = 0)
    (hkb : ∀ b ∈ k, b < 256) (hksz : k.length ≤ 2 ^ 32) :
    ∃ ct, aes_key_wrap enc wk k = some ct ∧
      aes_key_unwrap dec wk ct = some k := by
  have hn8 : 8 * (toBlocks k).length = k.length := by
    have h := blocksToBytes_toBlocks k.length k rfl hk8 hkb
    calc 8 * (toBlocks k).length
        = (blocksToBytes (toBlocks k)).length :=
          (blocksToBytes_length (toBlocks k)).symm
      _ = k.length := by rw [h]
  set n := (toBlocks k).length with hn
  have hrmem : ∀ x ∈ toBlocks k, x < 2 ^ 64 :=
    toBlocks_mem_lt k.length k rfl hkb
  have haiv : aivBlock < 2 ^ 64 := by norm_num [aivBlock]
  have hbound : n * (0 + 6) + 1 ≤ 2 ^ 64 := by
    have hnle : n ≤ 2 ^ 29 := by omega
    have : n * (0 + 6) ≤ 2 ^ 29 * 6 := by
      calc n * (0 + 6) = n * 6 := by ring
        _ ≤ 2 ^ 29 * 6 := Nat.mul_le_mul_right 6 hnle
    omega
  set p := wrapPasses (enc wk) n 6 0 aivBlock (toBlocks k) with hp
  have hct : aes_key_wrap enc wk k = some (blocksToBytes (p.1 :: p.2)) := by
    rw [aes_key_wrap, if_pos hwk, if_neg (by omega)]
    rw [if_neg (by omega)]
  refine ⟨blocksToBytes (p.1 :: p.2), hct, ?_⟩
  have hp1 : p.1 < 2 ^ 64 :=
    wrapPasses_fst_lt (enc wk) henc n 6 0 aivBlock (toBlocks k)
      haiv hrmem rfl hbound
  have hp2 : ∀ x ∈ p.2, x < 2 ^ 64 :=
    wrapPasses_snd_mem_lt (enc wk) n 6 0 aivBlock (toBlocks k) hrmem
  have hp2len : p.2.length = n :=
    wrapPasses_length (enc wk) n 6 0 aivBlock (toBlocks k)
  have hctlen : (blocksToBytes (p.1 :: p.2)).length = 8 * (n + 1) := by
    rw [blocksToBytes_length]
    simp [hp2len]
  have hctblocks : toBlocks (blocksToBytes (p.1 :: p.2)) = p.1 :: p.2 := by
    refine toBlocks_blocksToBytes (p.1 :: p.2) ?_
    intro x hx
    rcases List.mem_cons.mp hx with hx | hx
    · subst hx; exact hp1
    · exact hp2 x hx
  rw [aes_key_unwrap_cons dec wk _ p.1 p.2 (by omega) (by omega) hwk
    hctblocks]
  have hinv : unwrapPasses (dec wk) n 0 6 p.1 p.2 = (aivBlock, toBlocks k) := by
    rw [hp]
    exact unwrapPasses_wrapPasses (enc wk) (dec wk) hdec henc n 6 0 aivBlock
      (toBlocks k) haiv hrmem rfl hbound
  rw [hp2len, hinv]
  have hfinal : blocksToBytes (toBlocks k) = k :=
    blocksToBytes_toBlocks k.length k rfl hk8 hkb
  simp [hfinal]

/-! ### A concrete invertible keyed block transform, standing in for AES in
concrete evaluations (addition of the key material modulo `2 ^ 128`). -/

def addCipher (wk : List Nat) (x : Nat) : Nat :=
  (x + bytesToNat wk) % 2 ^ 128

def addCipherInv (wk : List Nat) (x : Nat) : Nat :=
  (x + (2 ^ 128 - bytesToNat wk % 2 ^ 128)) % 2 ^ 128

theorem addCipher_lt (wk : List Nat) : ∀ x < 2 ^ 128, addCipher wk x < 2 ^ 128 := by
  intro x _
  exact Nat.mod_lt _ (by positivity)

theorem addCipher_leftInverse (wk : List Nat) :
    ∀ x < 2 ^ 128, addCipherInv wk (addCipher wk x) = x := by
  intro x hx
  unfold addCipher addCipherInv
  omega

/-- Inversion of a successful `AESKeyWrap.__init__`: the stored fields come
from the constructor arguments. -/
theorem AESKeyWrap.init_ok_fields (p u : List (Int × CVal)) (ct : List Nat)
    (rs : List CVal) (ops : List Int) (key : List Nat) (R : AESKeyWrap)
    (h : AESKeyWrap.init p u ct rs ops key = Except.ok R) :
    R.key = key ∧ R.ciphertext = ct ∧ R.kid = RecipientInterface.getKid u := by
  unfold AESKeyWrap.init at h
  cases hA : RecipientInterface.getAlg p with
  | error e => rw [hA] at h; exact absurd h (by simp)
  | ok a =>
    rw [hA] at h
    dsimp only at h
    split_ifs at h with h1 h2 h3 h4 h5 h6 <;>
      first
        | (injection h with h'; subst h'; exact ⟨rfl, rfl, rfl⟩)
        | (injection h)

/-! ### Claim theorems. -/

/-- C1 (amended): for every AES-key-wrap recipient constructed with algorithm
id -3, -4 or -5 and a shared secret of the matching length, and every input
key whose raw bytes are a valid wrap input, `encode_key` followed by
`decode_key` (supplying the shared secret as the key argument and any
*non-zero* algorithm id) returns a key whose raw bytes equal the input key's
raw bytes exactly.  The abstract AES block transform is assumed invertible on
128-bit blocks. -/
theorem C1_encode_then_decode_roundtrip
    (enc dec : List Nat → Nat → Nat) (p u : List (Int × CVal))
    (ct0 : List Nat) (rs : List CVal) (ops : List Int) (wk : List Nat)
    (R : AESKeyWrap) (hR : AESKeyWrap.init p u ct0 rs ops wk = Except.ok R)
    (hwk : wk.length = 16 ∨ wk.length = 24 ∨ wk.length = 32)
    (hdec : ∀ x < 2 ^ 128, dec wk (enc wk x) = x)
    (henc : ∀ x < 2 ^ 128, enc wk x < 2 ^ 128)
    (k : SymKey) (hk16 : 16 ≤ k.k.length) (hk8 : k.k.length % 8 = 0)
    (hkb : ∀ b ∈ k.k, b < 256) (hksz : k.k.length ≤ 2 ^ 32)
    (skey : SymKey) (hskey : skey.k = wk) (alg2 : Int) (halg2 : alg2 ≠ 0) :
    ∃ R1 outk,
      AESKeyWrap.encode_key enc R (some k) = (R1, Except.ok k) ∧
      AESKeyWrap.decode_key dec R1 skey (some alg2) = Except.ok outk ∧
      outk.k = k.k := by
  obtain ⟨hkey, hct0, hkid⟩ :=
    AESKeyWrap.init_ok_fields p u ct0 rs ops wk R hR
  obtain ⟨ct, hwrap, hunwrap⟩ :=
    aes_key_wrap_unwrap enc dec wk k.k hdec henc hwk hk16 hk8 hkb hksz
  refine ⟨{ R with ciphertext := ct },
    COSEKey.from_symmetric_key k.k alg2 R.kid, ?_, ?_, rfl⟩
  · simp only [AESKeyWrap.encode_key, hkey, hwrap]
  · simp only [AESKeyWrap.decode_key, if_neg halg2, hskey, hunwrap]

set_option maxRecDepth 100000 in
theorem C1_encode_then_decode_roundtrip_witness :
    ∃ R1 outk,
      AESKeyWrap.encode_key addCipher
          ⟨[(1, CVal.int (-3))], [], [], [], [], List.replicate 16 7, -3, []⟩
          (some ⟨10, [], List.replicate 16 1, none⟩) =
        (R1, Except.ok ⟨10, [], List.replicate 16 1, none⟩) ∧
      AESKeyWrap.decode_key addCipherInv R1
          ⟨0, [], List.replicate 16 7, none⟩ (some 10) = Except.ok outk ∧
      outk.k = List.replicate 16 1 :=
  C1_encode_then_decode_roundtrip addCipher addCipherInv
    [(1, CVal.int (-3))] [] [] [] [] (List.replicate 16 7)
    ⟨[(1, CVal.int (-3))], [], [], [], [], List.replicate 16 7, -3, []⟩
    (by rfl) (by decide)
    (addCipher_leftInverse (List.replicate 16 7))
    (addCipher_lt (List.replicate 16 7))
    ⟨10, [], List.replicate 16 1, none⟩
    (by decide) (by decide) (by decide) (by decide)
    ⟨0, [], List.replicate 16 7, none⟩ rfl 10 (by decide)

/-- C1 counterexample to the claim as stated: with algorithm id 0 supplied to
`decode_key` ("any algorithm id"), the call raises `InvalidArgument` instead
of returning the wrapped key, because `if not alg` treats 0 as missing. -/
theorem C1_counterexample_alg_zero :
    AESKeyWrap.decode_key addCipherInv
        (AESKeyWrap.encode_key addCipher
          ⟨[(1, CVal.int (-3))], [], [], [], [], List.replicate 16 7, -3, []⟩
          (some ⟨10, [], List.replicate 16 1, none⟩)).1
        ⟨0, [], List.replicate 16 7, none⟩ (some 0) =
      Except.error (CwtError.invalidArgument "alg should be set.") := by
  rfl

/-- C2 (amended): construction rejects every algorithm id outside
\x7b-3, -4, -5\x7d with `InvalidArgument` "Unknown alg(3) for AES key wrap: id.",
and for a recognized id it rejects with `InvalidArgument`
"Invalid key length: n." exactly when the supplied shared secret is
*non-empty* and its length differs from the required 16, 24 or 32 bytes;
construction succeeds otherwise (an empty secret skips the length check). -/
theorem C2_construction_validation (p u : List (Int × CVal)) (ct : List Nat)
    (rs : List CVal) (ops : List Int) (key : List Nat) (a : Int)
    (hlook : p.lookup 1 = some (CVal.int a)) :
    ((a ≠ -3 ∧ a ≠ -4 ∧ a ≠ -5) →
      AESKeyWrap.init p u ct rs ops key =
        Except.error (CwtError.invalidArgument (unknownAlgMsg a))) ∧
    (∀ req : Nat, (a = -3 ∧ req = 16) ∨ (a = -4 ∧ req = 24) ∨
        (a = -5 ∧ req = 32) →
      (key ≠ [] ∧ key.length ≠ req →
        AESKeyWrap.init p u ct rs ops key =
          Except.error (CwtError.invalidArgument
            (invalidKeyLengthMsg key.length))) ∧
      (key = [] ∨ key.length = req →
        ∃ R, AESKeyWrap.init p u ct rs ops key = Except.ok R)) := by
  have hA : RecipientInterface.getAlg p = Except.ok a := by
    unfold RecipientInterface.getAlg
    rw [hlook]
  constructor
  · intro ⟨h3, h4, h5⟩
    unfold AESKeyWrap.init
    rw [hA]
    simp only [if_neg h3, if_neg h4, if_neg h5]
  · intro req hreq
    constructor
    · intro hbad
      unfold AESKeyWrap.init
      rw [hA]
      dsimp only
      rcases hreq with ⟨ha, hr⟩ | ⟨ha, hr⟩ | ⟨ha, hr⟩ <;> subst ha <;> subst hr
      · rw [if_pos (show ((-3 : Int)) = -3 from rfl), if_pos hbad]
      · rw [if_neg (show ¬((-4 : Int) = -3) from by decide),
          if_pos (show ((-4 : Int)) = -4 from rfl), if_pos hbad]
      · rw [if_neg (show ¬((-5 : Int) = -3) from by decide),
          if_neg (show ¬((-5 : Int) = -4) from by decide),
          if_pos (show ((-5 : Int)) = -5 from rfl), if_pos hbad]
    · intro hgood
      unfold AESKeyWrap.init
      rw [hA]
      dsimp only
      have hgood' : ¬(key ≠ [] ∧ key.length ≠ req) := by
        rcases hgood with h | h
        · intro ⟨h1, _⟩; exact h1 h
        · intro ⟨_, h2⟩; exact h2 h
      rcases hreq with ⟨ha, hr⟩ | ⟨ha, hr⟩ | ⟨ha, hr⟩ <;> subst ha <;> subst hr
      · exact ⟨_, by
          rw [if_pos (show ((-3 : Int)) = -3 from rfl), if_neg hgood']⟩
      · exact ⟨_, by
          rw [if_neg (show ¬((-4 : Int) = -3) from by decide),
            if_pos (show ((-4 : Int)) = -4 from rfl), if_neg hgood']⟩
      · exact ⟨_, by
          rw [if_neg (show ¬((-5 : Int) = -3) from by decide),
            if_neg (show ¬((-5 : Int) = -4) from by decide),
            if_pos (show ((-5 : Int)) = -5 from rfl), if_neg hgood']⟩

theorem C2_construction_validation_witness :
    ((-5 : Int) ≠ -3 ∧ (-5 : Int) ≠ -4 ∧ (-5 : Int) ≠ -5 →
      AESKeyWrap.init [(1, CVal.int (-5))] [] [] [] [] [1, 2, 3] =
        Except.error (CwtError.invalidArgument (unknownAlgMsg (-5)))) ∧
    (∀ req : Nat, ((-5 : Int) = -3 ∧ req = 16) ∨ ((-5 : Int) = -4 ∧ req = 24) ∨
        ((-5 : Int) = -5 ∧ req = 32) →
      (([1, 2, 3] : List Nat) ≠ [] ∧ ([1, 2, 3] : List Nat).length ≠ req →
        AESKeyWrap.init [(1, CVal.int (-5))] [] [] [] [] [1, 2, 3] =
          Except.error (CwtError.invalidArgument (invalidKeyLengthMsg 3))) ∧
      (([1, 2, 3] : List Nat) = [] ∨ ([1, 2, 3] : List Nat).length = req →
        ∃ R, AESKeyWrap.init [(1, CVal.int (-5))] [] [] [] [] [1, 2, 3] =
          Except.ok R)) :=
  C2_construction_validation [(1, CVal.int (-5))] [] [] [] [] [1, 2, 3] (-5)
    rfl

/-- C2 counterexample to the claim as stated: algorithm id -3 with an *empty*
supplied shared secret (length 0, which differs from the required 16)
succeeds instead of raising `InvalidArgument` "Invalid key length: 0.". -/
theorem C2_counterexample_empty_key :
    AESKeyWrap.init [(1, CVal.int (-3))] [] [] [] [] [] =
      Except.ok ⟨[(1, CVal.int (-3))], [], [], [], [], [], -3, []⟩ := by
  rfl

/-- C10: for every algorithm id in \x7b-3, -4, -5\x7d, constructing an
`AESKeyWrap` recipient with empty shared-secret bytes succeeds: the
key-length check is guarded by the secret's truthiness. -/
theorem C10_empty_secret_construction (p u : List (Int × CVal)) (ct : List Nat)
    (rs : List CVal) (ops : List Int) (a : Int)
    (hlook : p.lookup 1 = some (CVal.int a))
    (ha : a = -3 ∨ a = -4 ∨ a = -5) :
    ∃ R, AESKeyWrap.init p u ct rs ops [] = Except.ok R := by
  have hA : RecipientInterface.getAlg p = Except.ok a := by
    unfold RecipientInterface.getAlg
    rw [hlook]
  unfold AESKeyWrap.init
  rw [hA]
  dsimp only
  have hfalse : ¬(([] : List Nat) ≠ [] ∧ ([] : List Nat).length ≠ 16) := by
    intro ⟨h1, _⟩; exact h1 rfl
  have hfalse24 : ¬(([] : List Nat) ≠ [] ∧ ([] : List Nat).length ≠ 24) := by
    intro ⟨h1, _⟩; exact h1 rfl
  have hfalse32 : ¬(([] : List Nat) ≠ [] ∧ ([] : List Nat).length ≠ 32) := by
    intro ⟨h1, _⟩; exact h1 rfl
  rcases ha with ha | ha | ha <;> subst ha
  · exact ⟨_, by
      rw [if_pos (show ((-3 : Int)) = -3 from rfl), if_neg hfalse]⟩
  · exact ⟨_, by
      rw [if_neg (show ¬((-4 : Int) = -3) from by decide),
        if_pos (show ((-4 : Int)) = -4 from rfl), if_neg hfalse24]⟩
  · exact ⟨_, by
      rw [if_neg (show ¬((-5 : Int) = -3) from by decide),
        if_neg (show ¬((-5 : Int) = -4) from by decide),
        if_pos (show ((-5 : Int)) = -5 from rfl), if_neg hfalse32]⟩

theorem C10_empty_secret_construction_witness :
    ∃ R, AESKeyWrap.init [(1, CVal.int (-4))] [] [] [] [] [] = Except.ok R :=
  C10_empty_secret_construction [(1, CVal.int (-4))] [] [] [] [] (-4) rfl
    (by decide)

/-- C3 (amended): for every `AESKeyWrap` recipient, `decode_key` with a
non-zero `alg` unwraps the stored ciphertext using the *supplied* key
argument's raw bytes (not the structure's stored shared secret) and returns a
freshly constructed symmetric key whose algorithm id is the supplied `alg`
and whose key id is the recipient structure's key id. -/
theorem C3_decode_uses_supplied_key (dec : List Nat → Nat → Nat)
    (R : AESKeyWrap) (key : SymKey) (a : Int) (u : List Nat) (ha : a ≠ 0)
    (hu : aes_key_unwrap dec key.k R.ciphertext = some u) :
    AESKeyWrap.decode_key dec R key (some a) =
      Except.ok ⟨a, R.kid, u, none⟩ := by
  simp only [AESKeyWrap.decode_key, if_neg ha, hu]
  rfl

set_option maxRecDepth 100000 in
theorem C3_decode_uses_supplied_key_witness :
    AESKeyWrap.decode_key addCipherInv
        ⟨[], [], (aes_key_wrap addCipher (List.replicate 16 9)
          (List.replicate 16 1)).getD [], [], [], List.replicate 16 0, -3,
          [2, 2]⟩
        ⟨0, [], List.replicate 16 9, none⟩ (some 7) =
      Except.ok ⟨7, [2, 2], List.replicate 16 1, none⟩ :=
  C3_decode_uses_supplied_key addCipherInv
    ⟨[], [], (aes_key_wrap addCipher (List.replicate 16 9)
      (List.replicate 16 1)).getD [], [], [], List.replicate 16 0, -3,
      [2, 2]⟩
    ⟨0, [], List.replicate 16 9, none⟩ 7 (List.replicate 16 1)
    (by decide) (by rfl)

set_option maxRecDepth 100000 in
/-- C3 counterexample to the claim as stated: a recipient whose *stored*
shared secret is sixteen `0x00` bytes but whose ciphertext was wrapped under
a different key (sixteen `0x09` bytes) decodes successfully when that other
key is supplied as the key argument — while unwrapping the same ciphertext
under the structure's stored shared secret fails outright.  So `decode_key`
uses the supplied key, not the stored one. -/
theorem C3_counterexample_stored_secret :
    AESKeyWrap.decode_key addCipherInv
        ⟨[], [], (aes_key_wrap addCipher (List.replicate 16 9)
          (List.replicate 16 1)).getD [], [], [], List.replicate 16 0, -3, []⟩
        ⟨0, [], List.replicate 16 9, none⟩ (some 10) =
      Except.ok ⟨10, [], List.replicate 16 1, none⟩ ∧
    aes_key_unwrap addCipherInv (List.replicate 16 0)
        ((aes_key_wrap addCipher (List.replicate 16 9)
          (List.replicate 16 1)).getD []) = none := by
  constructor
  · rfl
  · decide

/-- C5: when the wrap primitive succeeds, `encode_key` returns the identical
input key and the only change to the recipient structure is its ciphertext
field, set to the AES key wrap of the input key's raw bytes under the stored
shared secret. -/
theorem C5_encode_key_frame (enc : List Nat → Nat → Nat) (R : AESKeyWrap)
    (k : SymKey) (ct : List Nat) (hct : aes_key_wrap enc R.key k.k = some ct) :
    AESKeyWrap.encode_key enc R (some k) =
      ({ R with ciphertext := ct }, Except.ok k) := by
  simp only [AESKeyWrap.encode_key, hct]

set_option maxRecDepth 100000 in
theorem C5_encode_key_frame_witness :
    AESKeyWrap.encode_key addCipher
        ⟨[(1, CVal.int (-3))], [], [9], [], [3], List.replicate 16 7, -3,
          [4]⟩
        (some ⟨10, [5], List.replicate 16 1, none⟩) =
      (⟨[(1, CVal.int (-3))], [], (aes_key_wrap addCipher
          (List.replicate 16 7) (List.replicate 16 1)).getD [], [], [3],
          List.replicate 16 7, -3, [4]⟩,
        Except.ok ⟨10, [5], List.replicate 16 1, none⟩) :=
  C5_encode_key_frame addCipher
    ⟨[(1, CVal.int (-3))], [], [9], [], [3], List.replicate 16 7, -3, [4]⟩
    ⟨10, [5], List.replicate 16 1, none⟩
    ((aes_key_wrap addCipher (List.replicate 16 7)
      (List.replicate 16 1)).getD [])
    (by rfl)

/-- C6: a null input key makes `encode_key` raise `InvalidArgument`
"key should be set." before the primitive runs, and a failing wrap primitive
makes it raise `EncodeError` "Failed to wrap key."; in both cases the
recipient structure (in particular its ciphertext) is unchanged. -/
theorem C6_encode_key_errors (enc : List Nat → Nat → Nat) (R : AESKeyWrap)
    (k : SymKey) (hfail : aes_key_wrap enc R.key k.k = none) :
    AESKeyWrap.encode_key enc R none =
      (R, Except.error (CwtError.invalidArgument "key should be set.")) ∧
    AESKeyWrap.encode_key enc R (some k) =
      (R, Except.error (CwtError.encodeError "Failed to wrap key.")) := by
  constructor
  · rfl
  · simp only [AESKeyWrap.encode_key, hfail]

theorem C6_encode_key_errors_witness :
    AESKeyWrap.encode_key addCipher ⟨[], [], [8], [], [], [], -3, []⟩ none =
      (⟨[], [], [8], [], [], [], -3, []⟩,
        Except.error (CwtError.invalidArgument "key should be set.")) ∧
    AESKeyWrap.encode_key addCipher ⟨[], [], [8], [], [], [], -3, []⟩
        (some ⟨1, [], [5], none⟩) =
      (⟨[], [], [8], [], [], [], -3, []⟩,
        Except.error (CwtError.encodeError "Failed to wrap key.")) :=
  C6_encode_key_errors addCipher ⟨[], [], [8], [], [], [], -3, []⟩
    ⟨1, [], [5], none⟩ (by rfl)

/-- C7 (amended): `decode_key` raises `InvalidArgument` "alg should be set."
exactly when the `alg` argument is absent *or zero* (Python falsiness), and
every failure of the unwrap primitive or of the subsequent key construction
is re-raised as `DecodeError` "Failed to decode key.".  The construction
clause is stated over `decode_key_with`, which abstracts the external key
builder as fallible; the third conjunct proves the source's `decode_key` is
its instance at the total spec-modelled builder. -/
theorem C7_decode_key_errors
    (bld : List Nat → Int → List Nat → Option SymKey)
    (dec : List Nat → Nat → Nat) (R : AESKeyWrap)
    (key : SymKey) (alg : Option Int) :
    (AESKeyWrap.decode_key dec R key alg =
        Except.error (CwtError.invalidArgument "alg should be set.") ↔
      alg = none ∨ alg = some 0) ∧
    (∀ a : Int, a ≠ 0 → aes_key_unwrap dec key.k R.ciphertext = none →
      AESKeyWrap.decode_key dec R key (some a) =
        Except.error (CwtError.decodeError "Failed to decode key.")) ∧
    (AESKeyWrap.decode_key dec R key alg =
      AESKeyWrap.decode_key_with
        (fun u a kid => some (COSEKey.from_symmetric_key u a kid))
        dec R key alg) ∧
    (∀ a : Int, a ≠ 0 → ∀ u, aes_key_unwrap dec key.k R.ciphertext = some u →
      bld u a R.kid = none →
      AESKeyWrap.decode_key_with bld dec R key (some a) =
        Except.error (CwtError.decodeError "Failed to decode key.")) := by
  refine ⟨⟨?_, ?_⟩, ?_, ?_, ?_⟩
  · intro h
    match alg with
    | none => exact Or.inl rfl
    | some a =>
      by_cases ha : a = 0
      · subst ha; exact Or.inr rfl
      · exfalso
        simp only [AESKeyWrap.decode_key, if_neg ha] at h
        cases hu : aes_key_unwrap dec key.k R.ciphertext with
        | none =>
          rw [hu] at h
          injection h with h'
          exact CwtError.noConfusion h'
        | some u =>
          rw [hu] at h
          injection h
  · intro h
    rcases h with rfl | rfl <;> rfl
  · intro a ha hu
    simp only [AESKeyWrap.decode_key, if_neg ha, hu]
  · match alg with
    | none => rfl
    | some a =>
      by_cases ha : a = 0
      · subst ha; rfl
      · simp only [AESKeyWrap.decode_key, AESKeyWrap.decode_key_with,
          if_neg ha]
  · intro a ha u hu hb
    simp only [AESKeyWrap.decode_key_with, if_neg ha, hu, hb]

theorem C7_decode_key_errors_witness :
    (AESKeyWrap.decode_key addCipherInv
        ⟨[], [], (aes_key_wrap addCipher (List.replicate 16 9)
          (List.replicate 16 1)).getD [], [], [], [], -3, []⟩
        ⟨0, [], List.replicate 16 9, none⟩ (some 5) =
        Except.error (CwtError.invalidArgument "alg should be set.") ↔
      (some 5 : Option Int) = none ∨ (some 5 : Option Int) = some 0) ∧
    (∀ a : Int, a ≠ 0 →
      aes_key_unwrap addCipherInv
          (⟨0, [], List.replicate 16 9, none⟩ : SymKey).k
          (⟨[], [], (aes_key_wrap addCipher (List.replicate 16 9)
            (List.replicate 16 1)).getD [], [], [], [], -3, []⟩ :
              AESKeyWrap).ciphertext = none →
      AESKeyWrap.decode_key addCipherInv
          ⟨[], [], (aes_key_wrap addCipher (List.replicate 16 9)
            (List.replicate 16 1)).getD [], [], [], [], -3, []⟩
          ⟨0, [], List.replicate 16 9, none⟩ (some a) =
        Except.error (CwtError.decodeError "Failed to decode key.")) ∧
    (AESKeyWrap.decode_key addCipherInv
        ⟨[], [], (aes_key_wrap addCipher (List.replicate 16 9)
          (List.replicate 16 1)).getD [], [], [], [], -3, []⟩
        ⟨0, [], List.replicate 16 9, none⟩ (some 5) =
      AESKeyWrap.decode_key_with
        (fun u a kid => some (COSEKey.from_symmetric_key u a kid))
        addCipherInv
        ⟨[], [], (aes_key_wrap addCipher (List.replicate 16 9)
          (List.replicate 16 1)).getD [], [], [], [], -3, []⟩
        ⟨0, [], List.replicate 16 9, none⟩ (some 5)) ∧
    (∀ a : Int, a ≠ 0 → ∀ u,
      aes_key_unwrap addCipherInv
          (⟨0, [], List.replicate 16 9, none⟩ : SymKey).k
          (⟨[], [], (aes_key_wrap addCipher (List.replicate 16 9)
            (List.replicate 16 1)).getD [], [], [], [], -3, []⟩ :
              AESKeyWrap).ciphertext = some u →
      (fun _ _ _ => (none : Option SymKey)) u a
          (⟨[], [], (aes_key_wrap addCipher (List.replicate 16 9)
            (List.replicate 16 1)).getD [], [], [], [], -3, []⟩ :
              AESKeyWrap).kid = none →
      AESKeyWrap.decode_key_with (fun _ _ _ => (none : Option SymKey))
          addCipherInv
          ⟨[], [], (aes_key_wrap addCipher (List.replicate 16 9)
            (List.replicate 16 1)).getD [], [], [], [], -3, []⟩
          ⟨0, [], List.replicate 16 9, none⟩ (some a) =
        Except.error (CwtError.decodeError "Failed to decode key.")) :=
  C7_decode_key_errors (fun _ _ _ => (none : Option SymKey)) addCipherInv
    ⟨[], [], (aes_key_wrap addCipher (List.replicate 16 9)
      (List.replicate 16 1)).getD [], [], [], [], -3, []⟩
    ⟨0, [], List.replicate 16 9, none⟩ (some 5)

/-- C7 counterexample to the claim as stated: supplying `alg = 0` — the
argument is present, not absent — still raises `InvalidArgument`
"alg should be set.", because the code tests Python falsiness (`if not alg`),
not absence. -/
theorem C7_counterexample_alg_zero_present :
    AESKeyWrap.decode_key addCipherInv ⟨[], [], [], [], [], [], -3, []⟩
        ⟨0, [], [], none⟩ (some 0) =
      Except.error (CwtError.invalidArgument "alg should be set.") := by
  rfl

/-- C4 (amended): `EncryptedCOSEKey.encode` returns the encrypted envelope's
payload value regardless of the `tagged` flag — the flag is accepted but
ignored, so the full tagged value is never returned. -/
theorem C4_encode_ignores_tagged (c : Collab) (key ek : SymKey)
    (nonce : List Nat) (t1 t2 : Bool) :
    EncryptedCOSEKey.encode c key ek nonce t1 =
      EncryptedCOSEKey.encode c key ek nonce t2 ∧
    (nonce ≠ [] →
      EncryptedCOSEKey.encode c key ek nonce t1 =
        Except.ok (c.coseEncodeAndEncrypt (c.dumps key.to_dict) ek
          [(1, CVal.int ek.alg)]
          ((if ek.kid ≠ [] then [(4, CVal.bytes ek.kid)] else []) ++
            [(5, CVal.bytes nonce)]) nonce).2) := by
  constructor
  · rfl
  · intro hn
    simp only [EncryptedCOSEKey.encode, if_neg hn]

theorem C4_encode_ignores_tagged_witness :
    EncryptedCOSEKey.encode
        ⟨fun _ _ => Except.ok [], fun _ _ _ _ _ => (16, CVal.arr []),
          fun _ => Except.ok (CVal.arr []), fun _ => [],
          fun _ => Except.ok ⟨0, [], [], none⟩⟩
        ⟨1, [], [2], none⟩ ⟨10, [], [3], none⟩ [9] true =
      EncryptedCOSEKey.encode
        ⟨fun _ _ => Except.ok [], fun _ _ _ _ _ => (16, CVal.arr []),
          fun _ => Except.ok (CVal.arr []), fun _ => [],
          fun _ => Except.ok ⟨0, [], [], none⟩⟩
        ⟨1, [], [2], none⟩ ⟨10, [], [3], none⟩ [9] false ∧
    (([9] : List Nat) ≠ [] →
      EncryptedCOSEKey.encode
          ⟨fun _ _ => Except.ok [], fun _ _ _ _ _ => (16, CVal.arr []),
            fun _ => Except.ok (CVal.arr []), fun _ => [],
            fun _ => Except.ok ⟨0, [], [], none⟩⟩
          ⟨1, [], [2], none⟩ ⟨10, [], [3], none⟩ [9] true =
        Except.ok ((Collab.coseEncodeAndEncrypt
          ⟨fun _ _ => Except.ok [], fun _ _ _ _ _ => (16, CVal.arr []),
            fun _ => Except.ok (CVal.arr []), fun _ => [],
            fun _ => Except.ok ⟨0, [], [], none⟩⟩
          (Collab.dumps
            ⟨fun _ _ => Except.ok [], fun _ _ _ _ _ => (16, CVal.arr []),
              fun _ => Except.ok (CVal.arr []), fun _ => [],
              fun _ => Except.ok ⟨0, [], [], none⟩⟩
            (SymKey.to_dict ⟨1, [], [2], none⟩))
          ⟨10, [], [3], none⟩
          [(1, CVal.int (SymKey.alg ⟨10, [], [3], none⟩))]
          ((if SymKey.kid ⟨10, [], [3], none⟩ ≠ [] then
              [(4, CVal.bytes (SymKey.kid ⟨10, [], [3], none⟩))]
            else []) ++ [(5, CVal.bytes [9])]) [9]).2)) :=
  C4_encode_ignores_tagged
    ⟨fun _ _ => Except.ok [], fun _ _ _ _ _ => (16, CVal.arr []),
      fun _ => Except.ok (CVal.arr []), fun _ => [],
      fun _ => Except.ok ⟨0, [], [], none⟩⟩
    ⟨1, [], [2], none⟩ ⟨10, [], [3], none⟩ [9] true false

/-- C4 counterexample to the claim as stated: with `tagged = true` the call
still returns the envelope's payload value (here the inner array), not the
full tagged value. -/
theorem C4_counterexample_tagged :
    EncryptedCOSEKey.encode
        ⟨fun _ _ => Except.ok [], fun _ _ _ _ _ => (16, CVal.arr []),
          fun _ => Except.ok (CVal.arr []), fun _ => [],
          fun _ => Except.ok ⟨0, [], [], none⟩⟩
        ⟨1, [], [2], none⟩ ⟨10, [], [3], none⟩ [9] true =
      Except.ok (CVal.arr []) ∧
    (Except.ok (CVal.arr []) : Except CwtError CVal) ≠
      Except.ok (CVal.tag 16 (CVal.arr [])) := by
  constructor
  · rfl
  · intro h
    injection h with h'
    exact CVal.noConfusion h'

/-- C8: in `EncryptedCOSEKey.encode`, an empty nonce is replaced by one
requested from the encryption key, failing with `InvalidArgument`
"Nonce generation is not supported for the key. Set a nonce explicitly." when
the key cannot generate one; every successful call passes the engine a
protected header that is exactly the map `1 : alg` and an unprotected header
holding the used nonce under label 5. -/
theorem C8_encode_nonce_and_headers (c : Collab) (key ek : SymKey)
    (nonce : List Nat) (tg : Bool) :
    (nonce = [] → ek.nonceGen = none →
      EncryptedCOSEKey.encode c key ek nonce tg =
        Except.error (CwtError.invalidArgument
          "Nonce generation is not supported for the key. Set a nonce explicitly.")) ∧
    (∀ m, nonce = [] → ek.nonceGen = some m →
      EncryptedCOSEKey.encode c key ek nonce tg =
        Except.ok (c.coseEncodeAndEncrypt (c.dumps key.to_dict) ek
          [(1, CVal.int ek.alg)]
          ((if ek.kid ≠ [] then [(4, CVal.bytes ek.kid)] else []) ++
            [(5, CVal.bytes m)]) m).2 ∧
      ((if ek.kid ≠ [] then [(4, CVal.bytes ek.kid)] else []) ++
          [(5, CVal.bytes m)]).lookup 5 = some (CVal.bytes m)) ∧
    (nonce ≠ [] →
      EncryptedCOSEKey.encode c key ek nonce tg =
        Except.ok (c.coseEncodeAndEncrypt (c.dumps key.to_dict) ek
          [(1, CVal.int ek.alg)]
          ((if ek.kid ≠ [] then [(4, CVal.bytes ek.kid)] else []) ++
            [(5, CVal.bytes nonce)]) nonce).2 ∧
      ((if ek.kid ≠ [] then [(4, CVal.bytes ek.kid)] else []) ++
          [(5, CVal.bytes nonce)]).lookup 5 = some (CVal.bytes nonce)) := by
  have hlook : ∀ m : List Nat,
      ((if ek.kid ≠ [] then [(4, CVal.bytes ek.kid)] else []) ++
        [(5, CVal.bytes m)]).lookup 5 = some (CVal.bytes m) := by
    intro m
    by_cases hkid : ek.kid ≠ []
    · rw [if_pos hkid]
      rfl
    · rw [if_neg hkid]
      rfl
  refine ⟨?_, ?_, ?_⟩
  · intro hn hgen
    subst hn
    simp [EncryptedCOSEKey.encode, hgen]
  · intro m hn hgen
    subst hn
    refine ⟨?_, hlook m⟩
    simp [EncryptedCOSEKey.encode, hgen]
  · intro hn
    refine ⟨?_, hlook nonce⟩
    simp only [EncryptedCOSEKey.encode, if_neg hn]

theorem C8_encode_nonce_and_headers_witness :
    (([] : List Nat) = [] → (⟨10, [7], [3], none⟩ : SymKey).nonceGen = none →
      EncryptedCOSEKey.encode
          ⟨fun _ _ => Except.ok [], fun _ _ _ _ _ => (16, CVal.arr []),
            fun _ => Except.ok (CVal.arr []), fun _ => [],
            fun _ => Except.ok ⟨0, [], [], none⟩⟩
          ⟨1, [], [2], none⟩ ⟨10, [7], [3], none⟩ [] false =
        Except.error (CwtError.invalidArgument
          "Nonce generation is not supported for the key. Set a nonce explicitly.")) ∧
    (∀ m, ([] : List Nat) = [] →
      (⟨10, [7], [3], none⟩ : SymKey).nonceGen = some m →
      EncryptedCOSEKey.encode
          ⟨fun _ _ => Except.ok [], fun _ _ _ _ _ => (16, CVal.arr []),
            fun _ => Except.ok (CVal.arr []), fun _ => [],
            fun _ => Except.ok ⟨0, [], [], none⟩⟩
          ⟨1, [], [2], none⟩ ⟨10, [7], [3], none⟩ [] false =
        Except.ok ((Collab.coseEncodeAndEncrypt
          ⟨fun _ _ => Except.ok [], fun _ _ _ _ _ => (16, CVal.arr []),
            fun _ => Except.ok (CVal.arr []), fun _ => [],
            fun _ => Except.ok ⟨0, [], [], none⟩⟩
          (Collab.dumps
            ⟨fun _ _ => Except.ok [], fun _ _ _ _ _ => (16, CVal.arr []),
              fun _ => Except.ok (CVal.arr []), fun _ => [],
              fun _ => Except.ok ⟨0, [], [], none⟩⟩
            (SymKey.to_dict ⟨1, [], [2], none⟩))
          ⟨10, [7], [3], none⟩
          [(1, CVal.int (SymKey.alg ⟨10, [7], [3], none⟩))]
          ((if SymKey.kid ⟨10, [7], [3], none⟩ ≠ [] then
              [(4, CVal.bytes (SymKey.kid ⟨10, [7], [3], none⟩))]
            else []) ++ [(5, CVal.bytes m)]) m).2) ∧
      ((if SymKey.kid ⟨10, [7], [3], none⟩ ≠ [] then
          [(4, CVal.bytes (SymKey.kid ⟨10, [7], [3], none⟩))]
        else []) ++ [(5, CVal.bytes m)]).lookup 5 = some (CVal.bytes m)) ∧
    (([] : List Nat) ≠ [] →
      EncryptedCOSEKey.encode
          ⟨fun _ _ => Except.ok [], fun _ _ _ _ _ => (16, CVal.arr []),
            fun _ => Except.ok (CVal.arr []), fun _ => [],
            fun _ => Except.ok ⟨0, [], [], none⟩⟩
          ⟨1, [], [2], none⟩ ⟨10, [7], [3], none⟩ [] false =
        Except.ok ((Collab.coseEncodeAndEncrypt
          ⟨fun _ _ => Except.ok [], fun _ _ _ _ _ => (16, CVal.arr []),
            fun _ => Except.ok (CVal.arr []), fun _ => [],
            fun _ => Except.ok ⟨0, [], [], none⟩⟩
          (Collab.dumps
            ⟨fun _ _ => Except.ok [], fun _ _ _ _ _ => (16, CVal.arr []),
              fun _ => Except.ok (CVal.arr []), fun _ => [],
              fun _ => Except.ok ⟨0, [], [], none⟩⟩
            (SymKey.to_dict ⟨1, [], [2], none⟩))
          ⟨10, [7], [3], none⟩
          [(1, CVal.int (SymKey.alg ⟨10, [7], [3], none⟩))]
          ((if SymKey.kid ⟨10, [7], [3], none⟩ ≠ [] then
              [(4, CVal.bytes (SymKey.kid ⟨10, [7], [3], none⟩))]
            else []) ++ [(5, CVal.bytes ([] : List Nat))]) []).2) ∧
      ((if SymKey.kid ⟨10, [7], [3], none⟩ ≠ [] then
          [(4, CVal.bytes (SymKey.kid ⟨10, [7], [3], none⟩))]
        else []) ++ [(5, CVal.bytes ([] : List Nat))]).lookup 5 =
        some (CVal.bytes ([] : List Nat))) :=
  C8_encode_nonce_and_headers
    ⟨fun _ _ => Except.ok [], fun _ _ _ _ _ => (16, CVal.arr []),
      fun _ => Except.ok (CVal.arr []), fun _ => [],
      fun _ => Except.ok ⟨0, [], [], none⟩⟩
    ⟨1, [], [2], none⟩ ⟨10, [7], [3], none⟩ [] false

/-- C9: `EncryptedCOSEKey.decode` delegates to the engine with the input
wrapped in the encrypted-key tag 16, then deserializes the plaintext and
rebuilds a typed key; an engine failure propagates as the engine's own error,
not re-wrapped. -/
theorem C9_decode_delegation (c : Collab) (key : CVal) (ek : SymKey) :
    (∀ e, c.coseDecode (16, key) ek = Except.error e →
      EncryptedCOSEKey.decode c key ek = Except.error e) ∧
    (∀ pt, c.coseDecode (16, key) ek = Except.ok pt →
      EncryptedCOSEKey.decode c key ek = (c.loads pt).bind c.from_dict) := by
  constructor
  · intro e he
    simp only [EncryptedCOSEKey.decode, he]
  · intro pt hpt
    simp only [EncryptedCOSEKey.decode, hpt]
    cases hl : c.loads pt with
    | error e => simp [Except.bind, hl]
    | ok v => simp [Except.bind, hl]

theorem C9_decode_delegation_witness :
    (∀ e, Collab.coseDecode
          ⟨fun _ _ => Except.ok [3], fun _ _ _ _ _ => (16, CVal.arr []),
            fun _ => Except.ok (CVal.int 5), fun _ => [],
            fun _ => Except.ok ⟨0, [], [], none⟩⟩
          (16, CVal.int 3) ⟨10, [], [2], none⟩ = Except.error e →
      EncryptedCOSEKey.decode
          ⟨fun _ _ => Except.ok [3], fun _ _ _ _ _ => (16, CVal.arr []),
            fun _ => Except.ok (CVal.int 5), fun _ => [],
            fun _ => Except.ok ⟨0, [], [], none⟩⟩
          (CVal.int 3) ⟨10, [], [2], none⟩ = Except.error e) ∧
    (∀ pt, Collab.coseDecode
          ⟨fun _ _ => Except.ok [3], fun _ _ _ _ _ => (16, CVal.arr []),
            fun _ => Except.ok (CVal.int 5), fun _ => [],
            fun _ => Except.ok ⟨0, [], [], none⟩⟩
          (16, CVal.int 3) ⟨10, [], [2], none⟩ = Except.ok pt →
      EncryptedCOSEKey.decode
          ⟨fun _ _ => Except.ok [3], fun _ _ _ _ _ => (16, CVal.arr []),
            fun _ => Except.ok (CVal.int 5), fun _ => [],
            fun _ => Except.ok ⟨0, [], [], none⟩⟩
          (CVal.int 3) ⟨10, [], [2], none⟩ =
        (Collab.loads
          ⟨fun _ _ => Except.ok [3], fun _ _ _ _ _ => (16, CVal.arr []),
            fun _ => Except.ok (CVal.int 5), fun _ => [],
            fun _ => Except.ok ⟨0, [], [], none⟩⟩ pt).bind
          (Collab.from_dict
            ⟨fun _ _ => Except.ok [3], fun _ _ _ _ _ => (16, CVal.arr []),
              fun _ => Except.ok (CVal.int 5), fun _ => [],
              fun _ => Except.ok ⟨0, [], [], none⟩⟩)) :=
  C9_decode_delegation
    ⟨fun _ _ => Except.ok [3], fun _ _ _ _ _ => (16, CVal.arr []),
      fun _ => Except.ok (CVal.int 5), fun _ => [],
      fun _ => Except.ok ⟨0, [], [], none⟩⟩
    (CVal.int 3) ⟨10, [], [2], none⟩
